import Mathlib

/-!
Verification of the blog content pipeline: the heading-id slugifier
(`generateIdFromText`), the markdown image-path rewriter (`markdownToHtml`)
and the post repository (`getPostBySlug`, `getAllPosts`).

JavaScript strings are modelled as lists of characters; the inputs analysed
here stay in the basic multilingual plane, where UTF-16 code units and
Unicode scalar values coincide.

Several scanning loops below take an explicit fuel argument so that the
recursion is structural (and therefore evaluates inside the kernel); each
loop step consumes at least one character, so fuel equal to the length of
the scanned string always suffices, and fuel-irrelevance lemmas justify the
choice where general theorems need it.
-/

/-- A JavaScript string, modelled as its list of characters. -/
abbrev Str := List Char

/-- The character class test of the slugifier filter, `/[a-z ]/i.test(c)`
restricted to the letter part: with the `i` flag and no `u` flag this is
exactly the ASCII letters, both cases (code points 97-122 and 65-90).
The same class body appears in the span regex. -/
def isAsciiLetterB (c : Char) : Bool :=
  (97 ≤ c.toNat && c.toNat ≤ 122) || (65 ≤ c.toNat && c.toNat ≤ 90)

/-- The span-removal step of the slugifier, a model of
`text.replaceAll(RE, "")` where RE is the global case-insensitive regex
matching a backtick, one or more ASCII letters, and a closing backtick.
`replaceAll` scans positions left to right: at a backtick followed by a
nonempty (greedy, so maximal) run of letters and then a closing backtick the
whole span is dropped and scanning resumes after the closing backtick;
at any other character the character is kept and scanning moves on by one.
(A shorter letter run can never rescue a failed match, because the character
after a shorter run is a letter, not the required closing backtick, so the
maximal-run test is exactly the regex's backtracking behaviour.)
The fuel argument only makes the recursion structural; every step consumes
at least one character and one unit of fuel. -/
def stripSpansGo : Nat → Str → Str
  | _, [] => []
  | 0, s => s
  | fuel + 1, c :: rest =>
    if c = '`' ∧ rest.takeWhile isAsciiLetterB ≠ [] ∧
        (rest.dropWhile isAsciiLetterB).head? = some '`' then
      stripSpansGo fuel (rest.dropWhile isAsciiLetterB).tail
    else c :: stripSpansGo fuel rest

/-- The span-removal step `text.replaceAll(RE, "")`: see `stripSpansGo`. -/
def stripSpans (s : Str) : Str := stripSpansGo s.length s

/-- The whitespace class removed by `String.prototype.trim`: ECMAScript
WhiteSpace and LineTerminator code points (the ones below, plus the other
Unicode space separators, none of which occur in the inputs considered). -/
def isJsWhitespace (c : Char) : Bool :=
  c = ' ' || c = '\t' || c = '\n' || c = '\r' || c = '\x0b' || c = '\x0c' ||
  c = ' ' || c = '﻿'

/-- `text.trim()`: drop leading and trailing whitespace. -/
def trimJs (s : Str) : Str :=
  ((s.dropWhile isJsWhitespace).reverse.dropWhile isJsWhitespace).reverse

/-- `generateIdFromText` (the string case, after the typeof guard):

    text.replaceAll(RE, "").trim().split("")
        .filter((c) => /[a-z ]/i.test(c))
        .map((c) => (c === " " ? "-" : c.toLowerCase()))
        .join("")

`split("")`/`join("")` are the passage to the character list, which is how
strings are modelled here.  `c.toLowerCase()` on a single character is
`Char.toLower` on the characters kept by the filter (ASCII letters and the
space, which `toLowerCase` leaves unchanged). -/
def generateIdFromText (text : Str) : Str :=
  ((trimJs (stripSpans text)).filter (fun c => isAsciiLetterB c || c = ' ')).map
    (fun c => if c = ' ' then '-' else Char.toLower c)

/-- A JavaScript runtime value, as far as the slugifier's typeof guard can
distinguish the cases that matter: a string or anything else. -/
inductive JsValue where
  | str (s : Str)
  | num (n : Int)
  | boolean (b : Bool)
  | null
  | undef
  | obj
  deriving DecidableEq

/-- The stringification a template literal applies to the guard's message
argument. -/
def jsDisplay : JsValue → Str
  | .str s => s
  | .num n => (toString n).toList
  | .boolean true => ("true").toList
  | .boolean false => ("false").toList
  | .null => ("null").toList
  | .undef => ("undefined").toList
  | .obj => ("[object Object]").toList

/-- Whether `typeof v === "string"`. -/
def isJsString : JsValue → Bool
  | .str _ => true
  | _ => false

/-- The full `generateIdFromText(text: any)`, with its typeof guard: a
non-string argument throws `Error("text must be a string, received: " + text)`
(modelled as `Except.error` carrying the message), a string argument runs the
transformation pipeline and returns normally. -/
def generateIdFromTextJs : JsValue → Except Str Str
  | .str s => .ok (generateIdFromText s)
  | v => .error (("text must be a string, received: ").toList ++ jsDisplay v)

/-! ### markdownToHtml: front-matter stripping and image-path rewriting -/

/-- Scan for the closing front-matter delimiter: a line starting with `---`.
On success, return everything after that delimiter line. -/
def findClose : Str → Option Str
  | '\n' :: '-' :: '-' :: '-' :: rest =>
    some ((rest.dropWhile (fun c => c != '\n')).drop 1)
  | _ :: rest => findClose rest
  | [] => none

/-- The `{ content } = matter(markdown)` step: gray-matter returns the input
unchanged when it does not open with the `---` delimiter line; otherwise the
front-matter block through the closing `---` line is stripped and the body
after it is the content.  (The documents in the theorems below carry no
front-matter, so only the unchanged-input case is exercised; the stripping
case approximates gray-matter for well-formed blocks.) -/
def matterContent (s : Str) : Str :=
  match s with
  | '-' :: '-' :: '-' :: '\n' :: rest =>
    match findClose ('\n' :: rest) with
    | some body => body
    | none => s
  | _ => s

/-- The lazy path part `(.*?)\)` of the image regex, tried at the position
just after `](`: the shortest run of non-line-terminator characters followed
by `)`.  Returns the captured path and the number of characters consumed
including the closing parenthesis.  (Because nothing follows `\)` in the
regex, the first closing parenthesis always completes the match.) -/
def scanPath : Str → Option (Str × Nat)
  | [] => none
  | ')' :: _ => some ([], 1)
  | c :: rest =>
    if c = '\n' ∨ c = '\r' then none
    else (scanPath rest).map (fun pn => (c :: pn.1, pn.2 + 1))

/-- The lazy alt part `(.*?)\]\(` followed by the path part, tried just after
`![`: alt characters (any non-line-terminator) are consumed one at a time; at
each occurrence of `](` the path part is attempted, and on its failure the
`]` is consumed as an alt character and scanning continues (the regex
backtracking order).  Returns the captured path and the number of characters
consumed from the start of the alt through the closing parenthesis.
Fuel makes the recursion structural; each step consumes one character. -/
def scanAltGo : Nat → Str → Option (Str × Nat)
  | _, [] => none
  | 0, _ => none
  | fuel + 1, ']' :: '(' :: rest =>
    match scanPath rest with
    | some pn => some (pn.1, pn.2 + 2)
    | none => (scanAltGo fuel ('(' :: rest)).map (fun pn => (pn.1, pn.2 + 1))
  | fuel + 1, c :: rest =>
    if c = '\n' ∨ c = '\r' then none
    else (scanAltGo fuel rest).map (fun pn => (pn.1, pn.2 + 1))

/-- Attempt the image regex `\!\[(.*?)\]\((.*?)\)` at the head of `s`:
`![`, then alt and path.  Returns the path capture (`matches[2]`) and the
total length of the match. -/
def matchImageAt (s : Str) : Option (Str × Nat) :=
  match s with
  | '!' :: '[' :: rest => (scanAltGo rest.length rest).map (fun pn => (pn.1, pn.2 + 2))
  | _ => none

/-- Find the leftmost regex match starting at offset `j` or later: returns
the path capture and the index one past the end of the match (the value
`exec` stores into `lastIndex`). -/
def findImageAux : Str → Nat → Option (Str × Nat)
  | s, j =>
    match matchImageAt s with
    | some pn => some (pn.1, j + pn.2)
    | none =>
      match s with
      | [] => none
      | _ :: rest => findImageAux rest (j + 1)

/-- `regex.exec(content)` with the regex's `lastIndex` at `i`: search for a
match from position `i` on. -/
def findImageFrom (s : Str) (i : Nat) : Option (Str × Nat) :=
  findImageAux (s.drop i) i

/-- `content.replace(target, repl)` with a plain string pattern: replace the
first occurrence of `target`, or return the string unchanged if it does not
occur.  (With an empty `target`, `replace` inserts `repl` at the start.) -/
def replaceFirst : Str → Str → Str → Str
  | s, target, repl =>
    if target.isPrefixOf s then repl ++ s.drop target.length
    else
      match s with
      | [] => []
      | c :: rest => c :: replaceFirst rest target repl

/-- The base path prepended in production, from the `/blog` basePath of the
deployment configuration. -/
def blogPrefix : Str := ("/blog").toList

/-- The production rewrite loop

    while ((matches = regex.exec(content)) !== null) {
      content = content.replace("](" + matches[2], `](/blog` + matches[2]);
    }

The regex object keeps its `lastIndex` across iterations while `content` is
reassigned, which this state-passing loop reproduces.  The loop does not
terminate on every document (a document of repeated empty-path images grows
by exactly as much as `lastIndex` advances), so the model bounds the number
of iterations by a fuel; the documents analysed below finish in at most
three iterations. -/
def rewriteLoop : Nat → Str → Nat → Str
  | 0, content, _ => content
  | fuel + 1, content, lastIndex =>
    match findImageFrom content lastIndex with
    | none => content
    | some (path, matchEnd) =>
      rewriteLoop fuel
        (replaceFirst content (']' :: '(' :: path) (']' :: '(' :: (blogPrefix ++ path)))
        matchEnd

/-- `markdownToHtml(markdown)`: strip front-matter, and in production mode
(`process.env.NODE_ENV === "production"`, here the `isProd` flag) run the
image-path rewrite loop on the content, starting with `lastIndex` 0. -/
def markdownToHtml (isProd : Bool) (markdown : Str) : Str :=
  let content := matterContent markdown
  if isProd then rewriteLoop (content.length + 1) content 0 else content

/-! ### The post repository -/

/-- A front-matter value, as produced by gray-matter's YAML parse of one
metadata entry.  The scalar cases suffice for the fields the repository
touches. -/
inductive FmValue where
  | str (s : Str)
  | num (n : Int)
  | bool (b : Bool)
  | null
  deriving DecidableEq

/-- JavaScript truthiness, `Boolean(v)`: false for `false`, `0`, the empty
string and `null` (and for an absent field, handled at the call site). -/
def jsTruthy : FmValue → Bool
  | .str s => !s.isEmpty
  | .num n => n != 0
  | .bool b => b
  | .null => false

/-- A content file after `matter(fileContents)`: the parsed front-matter
data and the body text. -/
structure ParsedFile where
  data : List (String × FmValue)
  content : Str
  deriving DecidableEq

/-- The `_posts` directory: filenames (as returned by `readdirSync`) paired
with the parsed contents of the file.  Reading and front-matter parsing are
folded into the store because every access goes through
`matter(readFileSync(path))`. -/
abbrev Store := List (Str × ParsedFile)

/-- `readFileSync` + `matter` for a path: look the file up by name; `none`
models the thrown I/O error for a missing file. -/
def lookupFile (store : Store) (path : Str) : Option ParsedFile :=
  (store.find? (fun nf => nf.1 == path)).map (·.2)

/-- Field access `data[field]` on a parsed front-matter object (also used
for the `items` record being built): `none` is JavaScript `undefined`. -/
def lookupField (data : List (String × FmValue)) (k : String) : Option FmValue :=
  (data.find? (fun kv => kv.1 == k)).map (·.2)

/-- The record being built by `getPostBySlug`. -/
abbrev Items := List (String × FmValue)

/-- Property assignment `items[k] = v`: overwrite an existing entry in
place, or append a new one. -/
def setItem : Items → String → FmValue → Items
  | [], k, v => [(k, v)]
  | kv :: rest, k, v => if kv.1 == k then (k, v) :: rest else kv :: setItem rest k v

/-- One iteration of the `fields.forEach` body in `getPostBySlug`:

    if (field === "slug") items[field] = realSlug;
    if (field === "content") items[field] = content;
    if (typeof data[field] !== "undefined") items[field] = data[field];

The three tests are independent `if`s, not an `if`/`else` chain: a
front-matter entry named `slug` or `content` overwrites the special-cased
value assigned by the first two tests. -/
def fieldStep (realSlug content : Str) (data : List (String × FmValue))
    (items : Items) (field : String) : Items :=
  let items1 := if field == "slug" then setItem items field (.str realSlug) else items
  let items2 := if field == "content" then setItem items1 field (.str content) else items1
  match lookupField data field with
  | some v => setItem items2 field v
  | none => items2

/-- `slug.replace(/\.md$/, "")`: remove a single trailing `.md` if present
(the regex is anchored at the end of the string). -/
def stripMd (s : Str) : Str :=
  if s.reverse.take 3 = ['d', 'm', '.'] then (s.reverse.drop 3).reverse else s

/-- The `.md` extension appended to build the full path. -/
def mdExt : Str := ['.', 'm', 'd']

/-- `getPostBySlug(slug, fields)` over an explicit directory `store`:
strip the extension from the slug, read and parse the file
`realSlug + ".md"` (`none` models the thrown error when it is missing), and
fold the requested fields into a fresh record. -/
def getPostBySlug (store : Store) (slug : Str) (fields : List String) : Option Items :=
  let realSlug := stripMd slug
  match lookupFile store (realSlug ++ mdExt) with
  | none => none
  | some file => some (fields.foldl (fieldStep realSlug file.content file.data) [])

/-- `getPostSlugs()`: the names in the content directory. -/
def getPostSlugs (store : Store) : List Str := store.map (·.1)

/-- The filter `({ publish }) => Boolean(publish)`: an absent `publish`
entry is `undefined`, hence falsy. -/
def pubPred (items : Items) : Bool :=
  match lookupField items "publish" with
  | some v => jsTruthy v
  | none => false

/-- JavaScript `<` on two strings: lexicographic comparison of code units. -/
def jsLtStr : Str → Str → Bool
  | [], [] => false
  | [], _ :: _ => true
  | _ :: _, [] => false
  | a :: s, b :: t => if a = b then jsLtStr s t else decide (a < b)

/-- The `date` entry of a fetched post, as the string the sort comparator
compares.  The repository's posts carry ISO-8601 date strings; a missing or
non-string date (never the case in the sorted stores the theorems consider)
is read as the empty string. -/
def dateStrOf (items : Items) : Str :=
  match lookupField items "date" with
  | some (.str d) => d
  | _ => []

/-- The order realised by `.sort((post1, post2) => (post1.date > post2.date ? -1 : 1))`:
`p` may be placed before `q` exactly when the comparator does not demand the
opposite order, i.e. when `p.date < q.date` fails.  For pairwise distinct
dates this is exactly the comparator's descending order; for equal dates the
comparator is inconsistent (it returns 1 both ways) and the engine's tie
order is unspecified, which the model fixes arbitrarily. -/
def postLe (p q : Items) : Prop := jsLtStr (dateStrOf p) (dateStrOf q) = false

instance : DecidableRel postLe := fun _ _ => instDecidableEqBool _ _

/-- `posts.sort(...)`: a sort by the comparator's order. -/
def sortPosts (l : List Items) : List Items := l.insertionSort postLe

/-- The enumerate-and-fetch part of `getAllPosts(fields)`: every directory
entry is fetched with the field list `["date", "publish", ...fields]`; a
missing file throws, aborting the whole call (`Option.mapM`). -/
def rawPosts (store : Store) (fields : List String) : Option (List Items) :=
  (getPostSlugs store).mapM (fun slug => getPostBySlug store slug ("date" :: "publish" :: fields))

/-- `getAllPosts(fields)`: fetch all posts, keep the truthy-`publish` ones,
sort by date descending. -/
def getAllPosts (store : Store) (fields : List String) : Option (List Items) :=
  (rawPosts store fields).map (fun posts => sortPosts (posts.filter pubPred))

/-- Whether an optional front-matter value is present and a string (used to
state that a post's `date` is a string, as the date sort expects). -/
def isStrVal : Option FmValue → Bool
  | some (.str _) => true
  | _ => false

/-- Concrete data for the witness theorems: a published post dated
2022-01-01 (its front-matter doubles as the record `getAllPosts` builds for
it), a second one dated 2023-01-01, and stores over them. -/
def postItemsA : Items := [("date", .str (("2022-01-01").toList)), ("publish", .bool true)]

/-- See `postItemsA`. -/
def postItemsB : Items := [("date", .str (("2023-01-01").toList)), ("publish", .bool true)]

/-- A one-post store for witnesses. -/
def storeA : Store := [(("a.md").toList, ⟨postItemsA, []⟩)]

/-- A two-post store for the sorting witness. -/
def storeAB : Store :=
  [(("a.md").toList, ⟨postItemsA, []⟩), (("b.md").toList, ⟨postItemsB, []⟩)]

/-- A file with a `title` entry and no front-matter `slug`, and a store
holding it as `foo.md`, for witnesses. -/
def fileFoo : ParsedFile := ⟨[("title", .str (("Hello").toList))], []⟩

/-- See `fileFoo`. -/
def storeFoo : Store := [(("foo.md").toList, fileFoo)]

/-! ### Lemmas about the slugifier -/

theorem stripSpansGo_fuel (f : Nat) : ∀ (g : Nat) (s : Str), s.length ≤ f → s.length ≤ g →
    stripSpansGo f s = stripSpansGo g s := by
  induction f using Nat.strong_induction_on with
  | _ f IH =>
    intro g s hf hg
    match f, g, s with
    | f, g, [] => cases f <;> cases g <;> rfl
    | 0, g, c :: rest => simp at hf
    | f' + 1, 0, c :: rest => simp at hg
    | f' + 1, g' + 1, c :: rest =>
      simp only [List.length_cons] at hf hg
      have hlen : (rest.dropWhile isAsciiLetterB).tail.length ≤ rest.length := by
        have h1 := (List.dropWhile_sublist (l := rest) isAsciiLetterB).length_le
        have h2 := List.length_tail (rest.dropWhile isAsciiLetterB)
        omega
      by_cases hcond : c = '`' ∧ rest.takeWhile isAsciiLetterB ≠ [] ∧
          (rest.dropWhile isAsciiLetterB).head? = some '`'
      · simp only [stripSpansGo, if_pos hcond]
        exact IH f' (by omega) g' _ (by omega) (by omega)
      · simp only [stripSpansGo, if_neg hcond]
        rw [IH f' (by omega) g' rest (by omega) (by omega)]

theorem stripSpans_cons_ne (c : Char) (s : Str) (hc : c ≠ '`') :
    stripSpans (c :: s) = c :: stripSpans s := by
  show stripSpansGo (s.length + 1) (c :: s) = c :: stripSpansGo s.length s
  simp only [stripSpansGo]
  rw [if_neg]
  intro h
  exact hc h.1

theorem stripSpans_eq_self (s : Str) (hs : '`' ∉ s) : stripSpans s = s := by
  induction s with
  | nil => rfl
  | cons c rest ih =>
    have hc : c ≠ '`' := fun h => hs (h ▸ List.mem_cons_self c rest)
    rw [stripSpans_cons_ne c rest hc, ih (fun hm => hs (List.mem_cons_of_mem c hm))]

theorem stripSpans_append (a t : Str) (ha : '`' ∉ a) :
    stripSpans (a ++ t) = a ++ stripSpans t := by
  induction a with
  | nil => simp
  | cons c a' ih =>
    have hc : c ≠ '`' := fun h => ha (h ▸ List.mem_cons_self c a')
    rw [List.cons_append, stripSpans_cons_ne c _ hc,
      ih (fun hm => ha (List.mem_cons_of_mem c hm))]
    rfl

theorem takeWhile_all_append (p : Char → Bool) (w : Str) (x : Char) (b : Str)
    (hw : ∀ c ∈ w, p c = true) (hx : p x = false) :
    (w ++ x :: b).takeWhile p = w := by
  induction w with
  | nil => simp [List.takeWhile, hx]
  | cons c w' ih =>
    simp only [List.cons_append, List.takeWhile, hw c (List.mem_cons_self c w')]
    exact congrArg (List.cons c) (ih (fun d hd => hw d (List.mem_cons_of_mem c hd)))

theorem dropWhile_all_append (p : Char → Bool) (w : Str) (x : Char) (b : Str)
    (hw : ∀ c ∈ w, p c = true) (hx : p x = false) :
    (w ++ x :: b).dropWhile p = x :: b := by
  induction w with
  | nil => simp [List.dropWhile, hx]
  | cons c w' ih =>
    simp only [List.cons_append, List.dropWhile, hw c (List.mem_cons_self c w')]
    exact ih (fun d hd => hw d (List.mem_cons_of_mem c hd))

theorem stripSpansGo_succ_cons (fuel : Nat) (c : Char) (rest : Str) :
    stripSpansGo (fuel + 1) (c :: rest) =
      if c = '`' ∧ rest.takeWhile isAsciiLetterB ≠ [] ∧
          (rest.dropWhile isAsciiLetterB).head? = some '`' then
        stripSpansGo fuel (rest.dropWhile isAsciiLetterB).tail
      else c :: stripSpansGo fuel rest := rfl

theorem stripSpans_span (w b : Str) (hw : ∀ c ∈ w, isAsciiLetterB c = true) (hne : w ≠ []) :
    stripSpans ('`' :: (w ++ '`' :: b)) = stripSpans b := by
  have htick : isAsciiLetterB '`' = false := by decide
  have h1 := takeWhile_all_append isAsciiLetterB w '`' b hw htick
  have h2 := dropWhile_all_append isAsciiLetterB w '`' b hw htick
  show stripSpansGo ((w ++ '`' :: b).length + 1) ('`' :: (w ++ '`' :: b)) = stripSpans b
  rw [stripSpansGo_succ_cons,
    if_pos ⟨rfl, by rw [h1]; exact hne, by rw [h2]; rfl⟩, h2]
  exact stripSpansGo_fuel _ b.length b (by simp; omega) (Nat.le_refl _)

theorem char_toNat_ofNat (n : Nat) (h : n < 55296) : (Char.ofNat n).toNat = n := by
  have hv : n.isValidChar := Or.inl h
  simp [Char.ofNat, hv, Char.ofNatAux, Char.toNat, UInt32.toNat]

/-! ### Claim theorems for the slugifier -/

/-- C3 (counterexample): the claimed identifier for `"Use ` `foo` ` here"` is
wrong: removing the code span leaves the two surrounding spaces adjacent, and
each retained space becomes a hyphen, so the code produces `"use--here"`,
not `"use-here"`. -/
theorem generateIdFromText_code_span_counterexample :
    generateIdFromText (("Use `foo` here").toList) = ("use--here").toList ∧
    generateIdFromText (("Use `foo` here").toList) ≠ ("use-here").toList := by
  constructor
  · decide
  · decide

/-- C3 (amended): inline single-word lowercase code spans are removed before
the identifier is derived — around backtick-free context the result is the
identifier of the text with the span deleted — and the example input
`"Use ` `foo` ` here"` yields `"use--here"` (the two spaces left around the
deleted span give two consecutive hyphens). -/
theorem generateIdFromText_code_span_removed :
    (∀ a w b : Str, '`' ∉ a → '`' ∉ b → w ≠ [] →
      (∀ c ∈ w, 97 ≤ c.toNat ∧ c.toNat ≤ 122) →
      generateIdFromText (a ++ '`' :: (w ++ '`' :: b)) = generateIdFromText (a ++ b)) ∧
    generateIdFromText (("Use `foo` here").toList) = ("use--here").toList := by
  constructor
  · intro a w b ha hb hne hw
    have hwl : ∀ c ∈ w, isAsciiLetterB c = true := by
      intro c hc
      have := hw c hc
      simp [isAsciiLetterB]
      omega
    unfold generateIdFromText
    rw [stripSpans_append a _ ha, stripSpans_span w b hwl hne,
      stripSpans_append a b ha]
  · decide

/-- C3 (witness for the amended theorem): the general part applied to the
example's decomposition. -/
theorem generateIdFromText_code_span_removed_witness :
    ('`' ∉ ("Use ").toList) ∧ ('`' ∉ (" here").toList) ∧ ("foo").toList ≠ [] ∧
    (∀ c ∈ ("foo").toList, 97 ≤ c.toNat ∧ c.toNat ≤ 122) ∧
    generateIdFromText (("Use ").toList ++ '`' :: (("foo").toList ++ '`' :: (" here").toList)) =
      generateIdFromText (("Use ").toList ++ (" here").toList) :=
  ⟨by decide, by decide, by decide, by decide,
    generateIdFromText_code_span_removed.1 (("Use ").toList) (("foo").toList) ((" here").toList)
      (by decide) (by decide) (by decide) (by decide)⟩

/-- C6 (counterexample): a heading consisting of letters and spaces whose
leading space is removed by `trim()`, so the output is not the lower-cased
input with spaces replaced by hyphens: `" a"` gives `"a"`, not `"-a"`. -/
theorem generateIdFromText_leading_space_counterexample :
    generateIdFromText ((" a").toList) = ("a").toList ∧
    generateIdFromText ((" a").toList) ≠ ("-a").toList := by
  constructor
  · decide
  · decide

/-- C6 (amended): for every heading of ASCII letters and spaces that is
unchanged by trimming (no leading or trailing spaces), the identifier is
exactly the lower-cased heading with each space replaced by a hyphen. -/
theorem generateIdFromText_letters_spaces (s : Str)
    (h1 : ∀ c ∈ s, isAsciiLetterB c = true ∨ c = ' ')
    (h2 : trimJs s = s) :
    generateIdFromText s = s.map (fun c => if c = ' ' then '-' else Char.toLower c) := by
  have hb : '`' ∉ s := by
    intro hm
    rcases h1 _ hm with h | h
    · exact absurd h (by decide)
    · exact absurd h (by decide)
  have hf : ∀ c ∈ s, (isAsciiLetterB c || c = ' ') = true := by
    intro c hc
    rcases h1 c hc with h | h <;> simp [h]
  unfold generateIdFromText
  rw [stripSpans_eq_self s hb, h2, List.filter_eq_self.2 hf]

/-- C6 (witness): the amended theorem at `"Hello World"`. -/
theorem generateIdFromText_letters_spaces_witness :
    (∀ c ∈ ("Hello World").toList, isAsciiLetterB c = true ∨ c = ' ') ∧
    trimJs (("Hello World").toList) = ("Hello World").toList ∧
    generateIdFromText (("Hello World").toList) =
      (("Hello World").toList).map (fun c => if c = ' ' then '-' else Char.toLower c) :=
  ⟨by decide, by decide,
    generateIdFromText_letters_spaces (("Hello World").toList) (by decide) (by decide)⟩

/-- C8: the typeof guard makes `generateIdFromText` return normally on every
string input (with the pipeline's output) and throw a type error on every
non-string input, producing no identifier. -/
theorem generateIdFromTextJs_string_guard :
    (∀ s : Str, generateIdFromTextJs (.str s) = .ok (generateIdFromText s)) ∧
    (∀ v : JsValue, (generateIdFromTextJs v).isOk = isJsString v) := by
  constructor
  · intro s
    rfl
  · intro v
    cases v <;> rfl

/-- C9: every character of the slugifier's output is a lowercase ASCII
letter (code points 97-122) or a hyphen, so the output is directly usable as
a URL anchor fragment. -/
theorem generateIdFromText_chars_lower_or_hyphen (s : Str) (c : Char)
    (hc : c ∈ generateIdFromText s) :
    (97 ≤ c.toNat ∧ c.toNat ≤ 122) ∨ c = '-' := by
  unfold generateIdFromText at hc
  rcases List.mem_map.1 hc with ⟨d, hd, rfl⟩
  have hdf := (List.mem_filter.1 hd).2
  by_cases hsp : d = ' '
  · right
    simp [hsp]
  · left
    have hletter : isAsciiLetterB d = true := by
      simp [hsp] at hdf
      exact hdf
    rw [if_neg hsp]
    unfold isAsciiLetterB at hletter
    simp at hletter
    unfold Char.toLower
    rcases hletter with ⟨ha1, ha2⟩ | ⟨ha1, ha2⟩
    · rw [if_neg (by omega)]
      exact ⟨ha1, ha2⟩
    · rw [if_pos ⟨ha1, ha2⟩, char_toNat_ofNat _ (by omega)]
      omega

/-- C9 (witness): the invariant checked on the first character of the
identifier of `"A b"`. -/
theorem generateIdFromText_chars_lower_or_hyphen_witness :
    'a' ∈ generateIdFromText (("A b").toList) ∧
    ((97 ≤ 'a'.toNat ∧ 'a'.toNat ≤ 122) ∨ 'a' = '-') :=
  ⟨by decide, generateIdFromText_chars_lower_or_hyphen (("A b").toList) 'a' (by decide)⟩

/-! ### Claim theorems for the markdown image rewrite -/

/-- C4 (counterexample): the rewrite loop does not reach every image
reference.  In the document `"](x ![a](x)"` the regex matches the single
image `![a](x)`, but `content.replace("](x", ...)` replaces the first
occurrence of `"](x"`, which is the bare leading text; the image itself is
left unchanged, so the output is not the document with the image's path
prefixed. -/
theorem markdownToHtml_missed_image_counterexample :
    markdownToHtml true (("](x ![a](x)").toList) = ("](/blogx ![a](x)").toList ∧
    markdownToHtml true (("](x ![a](x)").toList) ≠ ("](x ![a](/blogx)").toList := by
  constructor
  · decide
  · decide

/-- C4 (amended): when the identical image path appears twice in one
production document (and no stray `](path` text precedes the images), both
occurrences are rewritten, each exec/replace iteration consuming the next
occurrence: `![alt](/images/x.png)` twice becomes
`![alt](/blog/images/x.png)` twice. -/
theorem markdownToHtml_repeated_image_rewrite :
    markdownToHtml true (("![alt](/images/x.png)\n![alt](/images/x.png)").toList) =
      ("![alt](/blog/images/x.png)\n![alt](/blog/images/x.png)").toList := by
  decide

/-- C5 (counterexample): the loop performs no check that a path already
points at the deployed asset root: an image whose path already begins with
`/blog` is prefixed again rather than left unchanged. -/
theorem markdownToHtml_blog_path_counterexample :
    markdownToHtml true (("![a](/blog/images/x.png)").toList) =
      ("![a](/blog/blog/images/x.png)").toList ∧
    markdownToHtml true (("![a](/blog/images/x.png)").toList) ≠
      ("![a](/blog/images/x.png)").toList := by
  constructor
  · decide
  · decide

/-- C5 (amended): in production mode every matched image path is prefixed
with `/blog` unconditionally — including a path that already starts with
`/blog`, which becomes `/blog/blog/...`. -/
theorem markdownToHtml_unconditional_prefix :
    markdownToHtml true (("![a](/blog/x.png)").toList) = ("![a](/blog/blog/x.png)").toList := by
  decide

/-! ### Lemmas about the post repository -/

theorem lookupField_setItem_self (items : Items) (k : String) (v : FmValue) :
    lookupField (setItem items k v) k = some v := by
  induction items with
  | nil => simp [setItem, lookupField, List.find?]
  | cons kv rest ih =>
    by_cases h : kv.1 == k
    · simp [setItem, h, lookupField, List.find?]
    · simp only [setItem, h, if_false, Bool.false_eq_true]
      simp only [lookupField, List.find?, h]
      exact ih

theorem lookupField_setItem_ne (items : Items) (k k' : String) (v : FmValue) (h : k' ≠ k) :
    lookupField (setItem items k v) k' = lookupField items k' := by
  have hkk : (k == k') = false := by
    simp
    exact fun he => h he.symm
  induction items with
  | nil => simp [setItem, lookupField, List.find?, hkk]
  | cons kv rest ih =>
    by_cases hk : kv.1 == k
    · have hkv : (kv.1 == k') = false := by
        have he : kv.1 = k := by simpa using hk
        simp [he]
        exact fun hc => h hc.symm
      simp [setItem, hk, lookupField, List.find?, hkk, hkv]
    · simp only [setItem, hk, if_false, Bool.false_eq_true]
      by_cases hkv : kv.1 == k'
      · simp [lookupField, List.find?, hkv]
      · simp only [lookupField, List.find?, hkv]
        exact ih

theorem lookupField_fieldStep_slug (rs ct : Str) (dt : List (String × FmValue)) (items : Items)
    (f : String) (hnos : lookupField dt "slug" = none) :
    lookupField (fieldStep rs ct dt items f) "slug" =
      if f = "slug" then some (.str rs) else lookupField items "slug" := by
  unfold fieldStep
  by_cases hf : f = "slug"
  · subst hf
    rw [if_pos rfl]
    simp only [hnos]
    have : (("slug" : String) == "content") = false := by decide
    simp [this, lookupField_setItem_self]
  · rw [if_neg hf]
    have hfb : (f == "slug") = false := by simpa using hf
    simp only [hfb, if_false, Bool.false_eq_true]
    cases hdt : lookupField dt f with
    | none =>
      by_cases hfc : f == "content"
      · simp [hfc, lookupField_setItem_ne _ _ _ _ (fun he => hf he.symm)]
      · simp [hfc]
    | some v =>
      by_cases hfc : f == "content"
      · simp [hfc, lookupField_setItem_ne _ _ _ _ (fun he => hf he.symm)]
      · simp [hfc, lookupField_setItem_ne _ _ _ _ (fun he => hf he.symm)]

theorem lookupField_foldl_slug (rs ct : Str) (dt : List (String × FmValue))
    (hnos : lookupField dt "slug" = none) :
    ∀ (fields : List String) (items : Items),
      lookupField (fields.foldl (fieldStep rs ct dt) items) "slug" =
        if "slug" ∈ fields then some (.str rs) else lookupField items "slug" := by
  intro fields
  induction fields with
  | nil => intro items; simp
  | cons f rest ih =>
    intro items
    rw [List.foldl_cons, ih]
    by_cases hf : "slug" ∈ rest
    · simp [hf]
    · rw [if_neg hf, lookupField_fieldStep_slug rs ct dt items f hnos]
      by_cases hsf : f = "slug"
      · subst hsf
        simp
      · rw [if_neg hsf, if_neg]
        simp
        exact ⟨fun he => hsf he.symm, hf⟩

theorem stripMd_append_md (s : Str) : stripMd (s ++ mdExt) = s := by
  unfold stripMd mdExt
  rw [List.reverse_append]
  simp [List.take, List.drop]

theorem stripMd_no_md (s : Str) (h : s.reverse.take 3 ≠ ['d', 'm', '.']) : stripMd s = s :=
  if_neg h

theorem jsLtStr_irrefl (s : Str) : jsLtStr s s = false := by
  induction s with
  | nil => rfl
  | cons a s ih => simp [jsLtStr, ih]

theorem jsLtStr_trans (s : Str) : ∀ t u : Str, jsLtStr s t = true → jsLtStr t u = true →
    jsLtStr s u = true := by
  induction s with
  | nil =>
    intro t u h1 h2
    cases t with
    | nil => simp [jsLtStr] at h1
    | cons b t =>
      cases u with
      | nil => simp [jsLtStr] at h2
      | cons c u => simp [jsLtStr]
  | cons a s ih =>
    intro t u h1 h2
    cases t with
    | nil => simp [jsLtStr] at h1
    | cons b t =>
      cases u with
      | nil => simp [jsLtStr] at h2
      | cons c u =>
        simp only [jsLtStr] at h1 h2 ⊢
        by_cases hab : a = b
        · subst hab
          rw [if_pos rfl] at h1
          by_cases hbc : a = c
          · subst hbc
            rw [if_pos rfl] at h2 ⊢
            exact ih t u h1 h2
          · rw [if_neg hbc] at h2 ⊢
            exact h2
        · rw [if_neg hab] at h1
          by_cases hbc : b = c
          · subst hbc
            rw [if_neg hab]
            exact h1
          · rw [if_neg hbc] at h2
            have hac : a < c := lt_trans (of_decide_eq_true h1) (of_decide_eq_true h2)
            rw [if_neg (ne_of_lt hac)]
            exact decide_eq_true hac

theorem jsLtStr_connex (s : Str) : ∀ t : Str, s ≠ t →
    jsLtStr s t = true ∨ jsLtStr t s = true := by
  induction s with
  | nil =>
    intro t ht
    cases t with
    | nil => exact absurd rfl ht
    | cons b t =>
      left
      simp [jsLtStr]
  | cons a s ih =>
    intro t ht
    cases t with
    | nil =>
      right
      simp [jsLtStr]
    | cons b t =>
      by_cases hab : a = b
      · subst hab
        have hst : s ≠ t := fun h => ht (by rw [h])
        rcases ih t hst with h | h
        · left
          simp [jsLtStr, h]
        · right
          simp [jsLtStr, h]
      · rcases lt_or_gt_of_ne hab with h | h
        · left
          simp [jsLtStr, hab, h]
        · right
          simp [jsLtStr, Ne.symm hab, h]

theorem postLe_trans (p q r : Items) (h1 : postLe p q) (h2 : postLe q r) : postLe p r := by
  unfold postLe at h1 h2 ⊢
  rw [Bool.eq_false_iff] at h1 h2 ⊢
  intro h3
  by_cases hpq : dateStrOf p = dateStrOf q
  · rw [hpq] at h3
    exact h2 h3
  · rcases jsLtStr_connex _ _ hpq with h | h
    · exact h1 h
    · exact h2 (jsLtStr_trans _ _ _ h h3)

theorem postLe_total (p q : Items) : postLe p q ∨ postLe q p := by
  unfold postLe
  by_cases h : jsLtStr (dateStrOf p) (dateStrOf q) = true
  · right
    rw [Bool.eq_false_iff]
    intro h2
    have h3 := jsLtStr_trans _ _ _ h h2
    rw [jsLtStr_irrefl] at h3
    simp at h3
  · left
    exact Bool.eq_false_iff.2 h

instance : IsTrans Items postLe := ⟨postLe_trans⟩

instance : IsTotal Items postLe := ⟨postLe_total⟩

/-! ### Claim theorems for the post repository -/

/-- C1 (counterexample): a post whose `publish` front-matter value is the
number `1` — not strictly `true` — still appears in the listing, because the
filter is `Boolean(publish)` and `1` is truthy. -/
theorem getAllPosts_truthy_nonbool_counterexample :
    getAllPosts
        [(("a.md").toList, ⟨[("date", .str (("2022-01-01").toList)), ("publish", .num 1)], []⟩)]
        [] =
      some [[("date", FmValue.str (("2022-01-01").toList)), ("publish", FmValue.num 1)]] ∧
    FmValue.num 1 ≠ FmValue.bool true := by
  constructor
  · decide
  · decide

/-- C1 (amended): the filter is JavaScript truthiness, not strict equality
with `true`: every post in `getAllPosts`'s output has a present, truthy
`publish` value — so `publish: false`, an absent `publish`, and falsy values
(`0`, `""`, `null`) are excluded, but any truthy non-`true` value is kept. -/
theorem getAllPosts_mem_publish_truthy (store : Store) (fields : List String)
    (l : List Items) (p : Items) (h : getAllPosts store fields = some l) (hp : p ∈ l) :
    ∃ v, lookupField p "publish" = some v ∧ jsTruthy v = true := by
  unfold getAllPosts at h
  rcases Option.map_eq_some'.1 h with ⟨raw, hraw, rfl⟩
  have hp2 : p ∈ raw.filter pubPred := by
    unfold sortPosts at hp
    exact (List.mem_insertionSort postLe).1 hp
  have hpub := (List.mem_filter.1 hp2).2
  unfold pubPred at hpub
  cases hlk : lookupField p "publish" with
  | none =>
    rw [hlk] at hpub
    simp at hpub
  | some v =>
    rw [hlk] at hpub
    exact ⟨v, rfl, hpub⟩

/-- C1 (witness): a store with one published post; the theorem applied to
its output element. -/
theorem getAllPosts_mem_publish_truthy_witness :
    getAllPosts storeA [] = some [postItemsA] ∧
    postItemsA ∈ [postItemsA] ∧
    ∃ v, lookupField postItemsA "publish" = some v ∧ jsTruthy v = true :=
  ⟨by decide, by decide,
    getAllPosts_mem_publish_truthy storeA [] [postItemsA] postItemsA (by decide) (by decide)⟩

/-- C2 (counterexample): on a file `foo.md` whose front-matter itself
contains `slug: "bar"`, requesting `slug` returns the front-matter value
`"bar"`, not the filename-derived `"foo"`: the third field test is an
independent `if`, so front-matter overwrites the special-cased slug. -/
theorem getPostBySlug_frontmatter_slug_counterexample :
    getPostBySlug [(("foo.md").toList, ⟨[("slug", .str (("bar").toList))], []⟩)]
        (("foo").toList) ["slug"] =
      some [("slug", FmValue.str (("bar").toList))] ∧
    FmValue.str (("bar").toList) ≠ FmValue.str (("foo").toList) := by
  constructor
  · decide
  · decide

/-- C2 (amended): whenever the file's front-matter has no `slug` entry of
its own, a requested `slug` field equals the filename minus extension; a
front-matter `slug` entry overwrites it. -/
theorem getPostBySlug_slug_from_filename (store : Store) (slug : Str) (fields : List String)
    (file : ParsedFile)
    (hfile : lookupFile store (stripMd slug ++ mdExt) = some file)
    (hnos : lookupField file.data "slug" = none)
    (hmem : "slug" ∈ fields) :
    ∃ items, getPostBySlug store slug fields = some items ∧
      lookupField items "slug" = some (.str (stripMd slug)) := by
  simp only [getPostBySlug]
  rw [hfile]
  exact ⟨_, rfl, by rw [lookupField_foldl_slug _ _ _ hnos fields [], if_pos hmem]⟩

/-- C2 (witness): a file with a `title` entry and no front-matter `slug`;
the returned record's `slug` is the filename minus extension. -/
theorem getPostBySlug_slug_from_filename_witness :
    lookupFile storeFoo (stripMd (("foo").toList) ++ mdExt) = some fileFoo ∧
    lookupField fileFoo.data "slug" = none ∧
    "slug" ∈ ["title", "slug"] ∧
    ∃ items, getPostBySlug storeFoo (("foo").toList) ["title", "slug"] = some items ∧
      lookupField items "slug" = some (.str (stripMd (("foo").toList))) :=
  ⟨by decide, by decide, by decide,
    getPostBySlug_slug_from_filename storeFoo (("foo").toList) ["title", "slug"] fileFoo
      (by decide) (by decide) (by decide)⟩

/-- C7: when every fetch succeeds, the published posts carry string dates,
and those dates are pairwise distinct, `getAllPosts` returns exactly the
published posts (a permutation of the truthy-`publish` filter of the
fetched posts), ordered strictly descending under the lexicographic
code-unit comparison of the `date` strings — no date parsing anywhere. -/
theorem getAllPosts_sorted_desc (store : Store) (fields : List String) (raw : List Items)
    (h : rawPosts store fields = some raw)
    (_hdates : ∀ p ∈ raw.filter pubPred, isStrVal (lookupField p "date") = true)
    (hdist : (raw.filter pubPred).Pairwise (fun p q => dateStrOf p ≠ dateStrOf q)) :
    ∃ l, getAllPosts store fields = some l ∧ l.Perm (raw.filter pubPred) ∧
      l.Pairwise (fun p q => jsLtStr (dateStrOf q) (dateStrOf p) = true) := by
  refine ⟨sortPosts (raw.filter pubPred), ?_, ?_, ?_⟩
  · unfold getAllPosts
    rw [h]
    rfl
  · exact List.perm_insertionSort postLe _
  · have hsorted : List.Sorted postLe ((raw.filter pubPred).insertionSort postLe) :=
      List.sorted_insertionSort postLe _
    have hperm : (sortPosts (raw.filter pubPred)).Perm (raw.filter pubPred) :=
      List.perm_insertionSort postLe _
    have hdist2 :
        (sortPosts (raw.filter pubPred)).Pairwise (fun p q => dateStrOf p ≠ dateStrOf q) :=
      (List.Perm.pairwise_iff (fun hne => Ne.symm hne) hperm).2 hdist
    have hand := List.Pairwise.and hsorted hdist2
    refine hand.imp ?_
    intro p q hpq
    rcases hpq with ⟨hle, hne⟩
    rcases jsLtStr_connex _ _ hne with hx | hx
    · rw [postLe] at hle
      rw [hle] at hx
      exact absurd hx (by simp)
    · exact hx

/-- C7 (witness): two published posts with dates `"2022-01-01"` and
`"2023-01-01"`; the theorem applied to the fetched list. -/
theorem getAllPosts_sorted_desc_witness :
    rawPosts storeAB [] = some [postItemsA, postItemsB] ∧
    (∀ p ∈ ([postItemsA, postItemsB].filter pubPred),
      isStrVal (lookupField p "date") = true) ∧
    ([postItemsA, postItemsB].filter pubPred).Pairwise
      (fun p q => dateStrOf p ≠ dateStrOf q) ∧
    ∃ l, getAllPosts storeAB [] = some l ∧
      l.Perm ([postItemsA, postItemsB].filter pubPred) ∧
      l.Pairwise (fun p q => jsLtStr (dateStrOf q) (dateStrOf p) = true) :=
  ⟨by decide, by decide, by decide,
    getAllPosts_sorted_desc storeAB [] [postItemsA, postItemsB]
      (by decide) (by decide) (by decide)⟩

/-- C10: for a slug that does not already end in `.md` (its reversal does
not start with `d`, `m`, `.`), appending the `.md` extension changes
nothing: the extension is stripped before both the file path and the `slug`
field are derived, so directory filenames and extensionless route slugs are
interchangeable inputs. -/
theorem getPostBySlug_md_extension_invariant (store : Store) (s : Str) (fields : List String)
    (h : s.reverse.take 3 ≠ ['d', 'm', '.']) :
    getPostBySlug store (s ++ mdExt) fields = getPostBySlug store s fields := by
  unfold getPostBySlug
  rw [stripMd_append_md, stripMd_no_md s h]

/-- C10 (witness): the invariance at slug `"foo"` over a one-file store. -/
theorem getPostBySlug_md_extension_invariant_witness :
    (("foo").toList).reverse.take 3 ≠ ['d', 'm', '.'] ∧
    getPostBySlug [(("foo.md").toList, ⟨[("date", .str (("2022-01-01").toList))], []⟩)]
        ((("foo").toList) ++ mdExt) ["date"] =
      getPostBySlug [(("foo.md").toList, ⟨[("date", .str (("2022-01-01").toList))], []⟩)]
        (("foo").toList) ["date"] :=
  ⟨by decide, getPostBySlug_md_extension_invariant _ _ _ (by decide)⟩
